import Mathlib

/-!
Verification of the GRPO trainer orchestration code
(`swift/trainers/rlhf_trainer/grpo_trainer.py`) against its
natural-language specification.  The Python code is shallowly embedded:
pure helpers become Lean functions over `List`/`ℚ`, tensor computations
become explicit indexed sums over `ℚ`, and fallible code returns
`Option`/`Except`-style results.
-/

namespace GRPO

/- ----------------------------------------------------------------
   Constructor divisibility check (`GRPOTrainer.__init__`).

   Source:
     global_batch_size = args.per_device_train_batch_size * num_processes
     possible_values = [n_gen for n_gen in range(2, global_batch_size + 1)
                        if (global_batch_size) % n_gen == 0]
     if self.num_generations not in possible_values: raise ValueError(...)
   ---------------------------------------------------------------- -/

/-- `range(2, gbs + 1)` filtered to the divisors of `gbs`, exactly as the
constructor builds `possible_values`. -/
def possible_values (gbs : ℕ) : List ℕ :=
  (List.range' 2 (gbs + 1 - 2)).filter (fun n => gbs % n = 0)

/-- The constructor accepts `num_generations` iff it is a member of
`possible_values`; otherwise it raises a `ValueError`. -/
def grpoInitAccepts (num_generations gbs : ℕ) : Bool :=
  num_generations ∈ possible_values gbs

/- ----------------------------------------------------------------
   Weight sync (`_move_model_to_vllm_lmdeploy`), adapter merge scope.

   Source (per parameter group):
     if is_peft_model(unwrapped_model):
         with patch_merge(unwrapped_model):
             unwrapped_model.merge_adapter()
         state_dict = ...   # filtering pipeline
     ...
     assert len(state_dict) > 0 and all([state.shape != torch.Size([0]) ...])
     if self.infer_rank >= 0:
         llm_model.load_weights(state_dict.items())
     if is_peft_model(unwrapped_model):
         unwrapped_model.unmerge_adapter()
   There is no try/finally: an exception raised between the merge and the
   final unmerge propagates with the adapter still merged.
   ---------------------------------------------------------------- -/

/-- Adapter merge status of the training model. -/
structure PeftModel where
  merged : Bool
deriving DecidableEq, Repr

/-- The exceptions that can interrupt a weight-sync batch after the
adapter has been merged. -/
inductive SyncError where
  | assertionError
  | loadError
deriving DecidableEq, Repr

/-- The non-empty-state-dict assertion:
`len(state_dict) > 0 and all(state.shape != torch.Size([0]) ...)`,
with the state dict abstracted to its entry names and element counts. -/
def sync_assert_ok (state_dict : List (String × ℕ)) : Bool :=
  state_dict.length > 0 && state_dict.all (fun kv => kv.2 ≠ 0)

/-- One weight-sync batch of `_move_model_to_vllm_lmdeploy`: merge the
adapter (PEFT models only), run the state-dict assertion, push the
weights into the engine (`loadOk = false` models `load_weights`
raising), and unmerge on the normal exit path.  Returns the final model
state and the exception, if one was raised. -/
def move_model_sync (isPeft : Bool) (state_dict : List (String × ℕ))
    (loadOk : Bool) (m : PeftModel) : PeftModel × Option SyncError :=
  let m1 := if isPeft then { m with merged := true } else m
  if sync_assert_ok state_dict = false then (m1, some .assertionError)
  else if loadOk = false then (m1, some .loadError)
  else (if isPeft then { m1 with merged := false } else m1, none)

/- ----------------------------------------------------------------
   `offload_model` / `load_model`.

   Source:
     def offload_model(self):
         if len(self.offload_modules) > 0: return
         for name, module in unwrapped_model.named_modules():
             if isinstance(module, torch.nn.Embedding):
                 self.offload_modules[name] = module.weight.device
                 module.to('cpu')
             elif not hasattr(module, 'device'): pass
             elif module.device.type != 'cpu':
                 self.offload_modules[name] = module.device
                 module.to('cpu')

     def load_model(self):
         if len(self.offload_modules) == 0: return
         for name, device in self.offload_modules.items():
             module = unwrapped_model.get_submodule(name)
             if isinstance(module, torch.nn.Embedding):
                 module.weight.to(device)      # out of place, result discarded
             else:
                 module.to(device)             # nn.Module.to is in place
         self.offload_modules.clear()
   ---------------------------------------------------------------- -/

/-- A torch device. -/
inductive Device where
  | cpu
  | cuda (index : ℕ)
deriving DecidableEq, Repr

/-- The slice of a torch module the offload logic looks at: whether it is
an `nn.Embedding`, whether it has a `device` attribute, and the device its
parameters currently live on. -/
structure ModuleInfo where
  isEmbedding : Bool
  hasDevice : Bool
  device : Device
deriving DecidableEq, Repr

/-- Trainer state touched by `offload_model`/`load_model`: the named
modules of the unwrapped model and the `offload_modules` name-to-device
map. -/
structure ModelState where
  modules : List (String × ModuleInfo)
  offload_modules : List (String × Device)
deriving DecidableEq, Repr

/-- One iteration of the `offload_model` loop: move the module to cpu and
record its original device when the branch conditions say so. -/
def offload_step (acc : List (String × ModuleInfo) × List (String × Device))
    (nm : String × ModuleInfo) :
    List (String × ModuleInfo) × List (String × Device) :=
  let (name, m) := nm
  if m.isEmbedding then
    (acc.1 ++ [(name, { m with device := .cpu })], acc.2 ++ [(name, m.device)])
  else if !m.hasDevice then (acc.1 ++ [(name, m)], acc.2)
  else if m.device ≠ .cpu then
    (acc.1 ++ [(name, { m with device := .cpu })], acc.2 ++ [(name, m.device)])
  else (acc.1 ++ [(name, m)], acc.2)

/-- `offload_model`: no-op when the offload map is non-empty, otherwise
move embeddings and non-cpu modules to cpu, recording original devices. -/
def offload_model (s : ModelState) : ModelState :=
  if s.offload_modules.length > 0 then s
  else
    let r := s.modules.foldl offload_step ([], [])
    { modules := r.1, offload_modules := r.2 }

/-- `load_model`: no-op when the offload map is empty; otherwise walk the
map and move each recorded module back.  For an `nn.Embedding` the source
calls `module.weight.to(device)`, whose result is discarded
(`Tensor.to` is out of place), so the module is left unchanged; for other
modules `module.to(device)` moves them in place.  Finally the map is
cleared. -/
def load_model (s : ModelState) : ModelState :=
  if s.offload_modules.length = 0 then s
  else
    let modules := s.offload_modules.foldl
      (fun mods nd =>
        mods.map (fun nm =>
          if nm.1 = nd.1 then
            if nm.2.isEmbedding then nm
            else (nm.1, { nm.2 with device := nd.2 })
          else nm))
      s.modules
    { modules := modules, offload_modules := [] }

/- ----------------------------------------------------------------
   `round_robin` / `reorder_outputs`.

   Source:
     @staticmethod
     def round_robin(num_reqs, nodes):
         distribution = [[] for _ in range(nodes)]
         for idx in range(num_reqs):
             node_id = idx % nodes
             distribution[node_id].append(idx)
         return distribution

     @staticmethod
     def reorder_outputs(outputs, distributed_idx):
         index_to_output = {}
         current_position = 0
         for output_idx in distributed_idx:
             for idx in output_idx:
                 index_to_output[idx] = outputs[current_position]
                 current_position += 1
         return [index_to_output[idx] for idx in sorted(index_to_output.keys())]
   ---------------------------------------------------------------- -/

/-- One iteration of the `round_robin` loop:
`distribution[idx % nodes].append(idx)`. -/
def rrStep (nodes : ℕ) (dist : List (List ℕ)) (idx : ℕ) : List (List ℕ) :=
  dist.set (idx % nodes) (dist.getD (idx % nodes) [] ++ [idx])

/-- The `round_robin` loop run over `range(num_reqs)`, starting from
`nodes` empty lists. -/
def rrFold (num_reqs nodes : ℕ) : List (List ℕ) :=
  (List.range num_reqs).foldl (rrStep nodes) (List.replicate nodes [])

/-- `round_robin(num_reqs, nodes)`.  When `nodes = 0` and the loop body
executes at least once, `idx % nodes` raises `ZeroDivisionError`, modelled
as `none`. -/
def round_robin (num_reqs nodes : ℕ) : Option (List (List ℕ)) :=
  if nodes = 0 ∧ num_reqs ≠ 0 then none
  else some (rrFold num_reqs nodes)

/-- The dict-building loop of `reorder_outputs`:
`index_to_output[idx] = outputs[current_position]; current_position += 1`
over the flattened plan, with the fallible list access
`outputs[current_position]` (an out-of-range position raises
`IndexError`, modelled as `none`).  Returns the insertion sequence of the
dict. -/
def buildIndexToOutput {α : Type} :
    List ℕ → List α → ℕ → Option (List (ℕ × α))
  | [], _, _ => some []
  | idx :: rest, outputs, pos =>
    match outputs[pos]? with
    | none => none
    | some v =>
      (buildIndexToOutput rest outputs (pos + 1)).map (fun l => (idx, v) :: l)

/-- Python dict read `index_to_output[k]` for a dict built by the
insertion sequence `pairs`: the last write to a key wins. -/
def dictGet {α : Type} (pairs : List (ℕ × α)) (k : ℕ) : Option α :=
  pairs.reverse.lookup k

/-- `sorted(index_to_output.keys())`: the distinct keys of the dict in
ascending order, enumerated below any bound exceeding every inserted
key. -/
def dictKeysSorted {α : Type} (pairs : List (ℕ × α)) : List ℕ :=
  (List.range ((pairs.map Prod.fst).foldr max 0 + 1)).filter
    (fun k => (dictGet pairs k).isSome)

/-- `reorder_outputs(outputs, distributed_idx)`: build the
index-to-output dict, then read it back at its sorted keys. -/
def reorder_outputs {α : Type} (outputs : List α)
    (distributed_idx : List (List ℕ)) : Option (List α) :=
  (buildIndexToOutput distributed_idx.flatten outputs 0).map
    (fun pairs => (dictKeysSorted pairs).filterMap (dictGet pairs))

/- ----------------------------------------------------------------
   Leave-one-out advantage computation
   (`_generate_and_score_completions`, lines 1019-1046).

   Source:
     grouped_rewards = rewards.view(-1, self.num_generations)
     num_prompts = grouped_rewards.shape[0]
     advantages = torch.zeros_like(rewards)
     for prompt_idx in range(num_prompts):
         prompt_rewards = grouped_rewards[prompt_idx]
         for completion_idx in range(self.num_generations):
             mask = torch.ones(self.num_generations, dtype=torch.bool)
             mask[completion_idx] = False
             mean_others = prompt_rewards[mask].mean()
             flat_idx = prompt_idx * self.num_generations + completion_idx
             advantages[flat_idx] = prompt_rewards[completion_idx] - mean_others
   `rewards.view(-1, G)` raises a RuntimeError unless `G` is nonzero and
   divides the length, modelled as `none`.
   ---------------------------------------------------------------- -/

/-- `prompt_rewards[mask].mean()` where the mask excludes position `c`:
the mean of the rewards of the other group members. -/
def looMeanOthers (group : List ℚ) (c : ℕ) : ℚ :=
  (group.eraseIdx c).sum / ((group.eraseIdx c).length : ℚ)

/-- The advantages tensor filled by the double loop, flattened: entry
`flat = prompt_idx * G + completion_idx` holds
`prompt_rewards[completion_idx] - mean_others`, with
`prompt_rewards = grouped_rewards[flat / G]` the slice of `G` rewards
starting at `(flat / G) * G`. -/
def advantagesFlat (rewards : List ℚ) (G : ℕ) : List ℚ :=
  (List.range (rewards.length / G * G)).map (fun flat =>
    ((rewards.drop (flat / G * G)).take G).getD (flat % G) 0 -
      looMeanOthers ((rewards.drop (flat / G * G)).take G) (flat % G))

/-- The advantage computation, including the `view(-1, G)` validity
check. -/
def computeAdvantages (rewards : List ℚ) (G : ℕ) : Option (List ℚ) :=
  if G ∣ rewards.length ∧ G ≠ 0 then some (advantagesFlat rewards G) else none

/- ----------------------------------------------------------------
   `compute_loss` (lines 1108-1190): advantage gating, clipped
   surrogate loss, valid-group rescaling.

   Tensors are embedded as index functions over explicit bounds
   (`B` examples, `T` completion-token columns, groups of `G`), with
   `torch.exp` abstracted as a parameter `expQ`; the gating and
   aggregation structure proved below holds for every `expQ`.

   Source:
     advantage_threshold = 0.1
     num_prompts = batch_size // self.num_generations
     advantages_grouped = advantages.view(num_prompts, self.num_generations)
     max_abs_advantages = torch.max(torch.abs(advantages_grouped), dim=1)[0]
     valid_prompts = max_abs_advantages >= advantage_threshold
     num_valid_prompts = torch.sum(valid_prompts).item()
     total_prompts = valid_prompts.shape[0]
     if num_valid_prompts == 0: return torch.tensor(0.0)
     valid_examples = torch.repeat_interleave(valid_prompts, num_generations)
     masked_advantages = advantages * valid_examples
     filtered_completion_mask = completion_mask * valid_examples.unsqueeze(1)
     per_token_kl = exp(ref - cur) - (ref - cur) - 1          # if beta != 0
     old = inputs['old_per_token_logps'] if self.old_policy else cur.detach()
     coef_1 = torch.exp(cur - old)
     coef_2 = torch.clamp(coef_1, 1 - eps, 1 + eps)
     per_token_loss = -torch.min(coef_1 * masked_adv, coef_2 * masked_adv)
     if beta != 0: per_token_loss = per_token_loss + beta * per_token_kl
     if filtered_completion_mask.sum() > 0:
         loss = (per_token_loss * filtered_completion_mask).sum() \
                  / filtered_completion_mask.sum()
         loss = loss * (total_prompts / num_valid_prompts)
     else:
         loss = torch.tensor(0.0)
   ---------------------------------------------------------------- -/

/-- The tensors and scalars `compute_loss` reads: group size
`G = num_generations`, batch size `B = advantages.shape[0]`, `T`
completion-token columns, clip range `eps`, KL coefficient `beta`, the
`old_policy` flag, per-example advantages, the 0/1 completion mask, and
the current/old/reference per-token log-probabilities. -/
structure LossInputs where
  G : ℕ
  B : ℕ
  T : ℕ
  eps : ℚ
  beta : ℚ
  oldPolicy : Bool
  adv : ℕ → ℚ
  mask : ℕ → ℕ → Bool
  cur : ℕ → ℕ → ℚ
  old : ℕ → ℕ → ℚ
  ref : ℕ → ℕ → ℚ

/-- The fixed gating threshold `advantage_threshold = 0.1`. -/
def advantage_threshold : ℚ := 1 / 10

/-- `num_prompts = batch_size // self.num_generations`. -/
def num_prompts (L : LossInputs) : ℕ := L.B / L.G

/-- `torch.max(torch.abs(advantages_grouped), dim=1)[0]` for prompt `p`
(as a fold with initial value 0, all entries being absolute values). -/
def groupMaxAbs (L : LossInputs) (p : ℕ) : ℚ :=
  ((List.range L.G).map (fun c => |L.adv (p * L.G + c)|)).foldr max 0

/-- `valid_prompts = max_abs_advantages >= advantage_threshold`. -/
def validPrompt (L : LossInputs) (p : ℕ) : Bool :=
  decide (advantage_threshold ≤ groupMaxAbs L p)

/-- `num_valid_prompts = torch.sum(valid_prompts).item()`. -/
def numValidPrompts (L : LossInputs) : ℕ :=
  ((List.range (num_prompts L)).filter (fun p => validPrompt L p)).length

/-- `valid_examples = torch.repeat_interleave(valid_prompts, G)` at
example `i`. -/
def validExample (L : LossInputs) (i : ℕ) : Bool := validPrompt L (i / L.G)

/-- A 0/1 tensor entry from a boolean. -/
def boolToQ (b : Bool) : ℚ := if b then 1 else 0

/-- `masked_advantages = advantages * valid_examples`. -/
def maskedAdv (L : LossInputs) (i : ℕ) : ℚ :=
  L.adv i * boolToQ (validExample L i)

/-- `filtered_completion_mask = completion_mask * valid_examples`. -/
def filteredMask (L : LossInputs) (i t : ℕ) : ℚ :=
  boolToQ (L.mask i t) * boolToQ (validExample L i)

/-- `per_token_kl = exp(ref - cur) - (ref - cur) - 1`. -/
def perTokenKL (expQ : ℚ → ℚ) (L : LossInputs) (i t : ℕ) : ℚ :=
  expQ (L.ref i t - L.cur i t) - (L.ref i t - L.cur i t) - 1

/-- `inputs['old_per_token_logps'] if self.old_policy else cur.detach()`. -/
def oldLogps (L : LossInputs) (i t : ℕ) : ℚ :=
  if L.oldPolicy then L.old i t else L.cur i t

/-- `coef_1 = torch.exp(cur - old)`. -/
def coef1 (expQ : ℚ → ℚ) (L : LossInputs) (i t : ℕ) : ℚ :=
  expQ (L.cur i t - oldLogps L i t)

/-- `coef_2 = torch.clamp(coef_1, 1 - eps, 1 + eps)`. -/
def coef2 (expQ : ℚ → ℚ) (L : LossInputs) (i t : ℕ) : ℚ :=
  min (max (coef1 expQ L i t) (1 - L.eps)) (1 + L.eps)

/-- `per_token_loss = -min(coef_1 * masked_adv, coef_2 * masked_adv)`,
plus `beta * per_token_kl` when `beta != 0`. -/
def perTokenLoss (expQ : ℚ → ℚ) (L : LossInputs) (i t : ℕ) : ℚ :=
  -(min (coef1 expQ L i t * maskedAdv L i) (coef2 expQ L i t * maskedAdv L i)) +
    (if L.beta = 0 then 0 else L.beta * perTokenKL expQ L i t)

/-- `filtered_completion_mask.sum()`. -/
def filteredMaskSum (L : LossInputs) : ℚ :=
  ∑ i ∈ Finset.range L.B, ∑ t ∈ Finset.range L.T, filteredMask L i t

/-- `(per_token_loss * filtered_completion_mask).sum()`: the summed
numerator of the loss. -/
def lossNumer (expQ : ℚ → ℚ) (L : LossInputs) : ℚ :=
  ∑ i ∈ Finset.range L.B, ∑ t ∈ Finset.range L.T,
    perTokenLoss expQ L i t * filteredMask L i t

/-- The value `compute_loss` returns: 0 when no prompt group passes the
gate; otherwise the masked mean rescaled by
`total_prompts / num_valid_prompts` (or 0 when the filtered mask is
empty). -/
def compute_loss (expQ : ℚ → ℚ) (L : LossInputs) : ℚ :=
  if numValidPrompts L = 0 then 0
  else if 0 < filteredMaskSum L then
    (lossNumer expQ L / filteredMaskSum L) *
      ((num_prompts L : ℚ) / (numValidPrompts L : ℚ))
  else 0

/-- Per-token loss computed from the raw (unmasked) advantages; used by
the spec-side formulation below. -/
def rawPerTokenLoss (expQ : ℚ → ℚ) (L : LossInputs) (i t : ℕ) : ℚ :=
  -(min (coef1 expQ L i t * L.adv i) (coef2 expQ L i t * L.adv i)) +
    (if L.beta = 0 then 0 else L.beta * perTokenKL expQ L i t)

/-- Modelled from the spec: the aggregation of section 4.5 step 6
stated in the spec's own terms — sum the per-token loss over the tokens
of the valid groups only, divide by the count of completion-mask entries
of the valid groups, and rescale by
`total_prompt_groups / valid_prompt_groups`; exactly 0 when no group is
valid. -/
def gatedLossSpec (expQ : ℚ → ℚ) (L : LossInputs) : ℚ :=
  if numValidPrompts L = 0 then 0
  else
    (∑ p ∈ (Finset.range (num_prompts L)).filter (fun p => validPrompt L p),
        ∑ c ∈ Finset.range L.G, ∑ t ∈ Finset.range L.T,
          rawPerTokenLoss expQ L (p * L.G + c) t *
            boolToQ (L.mask (p * L.G + c) t))
      / (∑ p ∈ (Finset.range (num_prompts L)).filter (fun p => validPrompt L p),
          ∑ c ∈ Finset.range L.G, ∑ t ∈ Finset.range L.T,
            boolToQ (L.mask (p * L.G + c) t))
      * ((num_prompts L : ℚ) / (numValidPrompts L : ℚ))

/-- A concrete two-group loss input: group 0 has max |advantage|
`1/20 < 0.1` (gated out), group 1 has `1/2 ≥ 0.1` (kept); all mask
entries are 1 and all log-probabilities 0. -/
def lossExample : LossInputs :=
  { G := 2, B := 4, T := 1, eps := 1 / 5, beta := 0, oldPolicy := false,
    adv := fun i => ([1 / 20, -(1 / 20), 1 / 2, 0] : List ℚ).getD i 0,
    mask := fun _ _ => true,
    cur := fun _ _ => 0, old := fun _ _ => 0, ref := fun _ _ => 0 }

end GRPO

open GRPO

lemma GRPO.mem_possible_values (n gbs : ℕ) :
    n ∈ possible_values gbs ↔ 2 ≤ n ∧ n ≤ gbs ∧ gbs % n = 0 := by
  unfold possible_values
  rw [List.mem_filter, List.mem_range'_1]
  constructor
  · rintro ⟨⟨h2, hlt⟩, hmod⟩
    refine ⟨h2, by omega, by simpa using hmod⟩
  · rintro ⟨h2, hle, hmod⟩
    exact ⟨⟨h2, by omega⟩, by simpa using hmod⟩

/-- Claim C9: trainer construction fails (raises the configuration
`ValueError`) whenever the global train batch size, the per-device batch
size times the number of processes, is not evenly divisible by the number
of generations per prompt. -/
theorem grpo_init_rejects_nondivisible
    (per_device num_processes num_generations : ℕ)
    (h : ¬ num_generations ∣ per_device * num_processes) :
    GRPO.grpoInitAccepts num_generations (per_device * num_processes) = false := by
  rw [Bool.eq_false_iff]
  intro hacc
  have hmem : num_generations ∈ GRPO.possible_values (per_device * num_processes) := by
    simpa [GRPO.grpoInitAccepts] using hacc
  rcases (GRPO.mem_possible_values _ _).mp hmem with ⟨h2, hle, hmod⟩
  exact h (Nat.dvd_of_mod_eq_zero hmod)

/-- Witness for C9 at a concrete input: batch size 2 × 2 = 4 is not
divisible by 3 generations, so construction is rejected. -/
theorem grpo_init_rejects_nondivisible_witness :
    GRPO.grpoInitAccepts 3 (2 * 2) = false :=
  grpo_init_rejects_nondivisible 2 2 3 (by decide)

/-- Claim C10: the constructor accepts exactly the divisors of the global
batch size lying in `[2, global_batch_size]`; in particular
`num_generations = 1` is rejected for every global batch size even though
1 divides it. -/
theorem grpo_init_accepts_iff (num_generations gbs : ℕ) :
    (GRPO.grpoInitAccepts num_generations gbs = true ↔
      2 ≤ num_generations ∧ num_generations ≤ gbs ∧ num_generations ∣ gbs) ∧
    GRPO.grpoInitAccepts 1 gbs = false := by
  constructor
  · rw [show (GRPO.grpoInitAccepts num_generations gbs = true) ↔
        num_generations ∈ GRPO.possible_values gbs by
          simp [GRPO.grpoInitAccepts]]
    rw [GRPO.mem_possible_values]
    constructor
    · rintro ⟨h2, hle, hmod⟩
      exact ⟨h2, hle, Nat.dvd_of_mod_eq_zero hmod⟩
    · rintro ⟨h2, hle, hdvd⟩
      exact ⟨h2, hle, Nat.mod_eq_zero_of_dvd hdvd⟩
  · rw [Bool.eq_false_iff]
    intro hacc
    have hmem : (1 : ℕ) ∈ GRPO.possible_values gbs := by
      simpa [GRPO.grpoInitAccepts] using hacc
    rcases (GRPO.mem_possible_values _ _).mp hmem with ⟨h2, -, -⟩
    omega

/-- Claim C6 counterexample: a PEFT model, initially unmerged, goes
through a weight-sync batch whose filtered state dict is empty; the
non-empty assertion raises between the merge and the push, and the model
is left merged, contradicting the claim that every exit path leaves it
unmerged. -/
theorem move_model_sync_merged_on_assert_failure :
    (move_model_sync true [] true ⟨false⟩).1.merged = true ∧
    (move_model_sync true [] true ⟨false⟩).2 = some .assertionError := by
  decide

/-- Claim C6 (amended): for a PEFT model, a weight-sync batch unmerges
the adapter exactly on the normal exit path: the run raises no exception
iff the state-dict assertion and the weight push both succeed, and the
final merge flag is set iff one of them raised (the merge is not
exception-scoped). -/
theorem move_model_sync_merge_scope (state_dict : List (String × ℕ))
    (loadOk : Bool) (m : PeftModel) :
    (move_model_sync true state_dict loadOk m).1.merged
        = !(sync_assert_ok state_dict && loadOk) ∧
    ((move_model_sync true state_dict loadOk m).2 = none ↔
        (sync_assert_ok state_dict && loadOk) = true) := by
  unfold move_model_sync
  cases h : sync_assert_ok state_dict <;> cases loadOk <;> simp [h]

/-- A two-module model used to exercise `offload_model`/`load_model`: an
embedding and an ordinary module, both on `cuda 0`, nothing offloaded. -/
def embedOffloadExample : ModelState :=
  { modules := [("embed", ⟨true, false, .cuda 0⟩), ("proj", ⟨false, true, .cuda 0⟩)],
    offload_modules := [] }

/-- Claim C8 (code bug): offloading moves both modules to cpu and records
their original `cuda 0` placement; loading restores the ordinary module
and clears the map, but the embedding is left on cpu because
`module.weight.to(device)` is out of place and its result is discarded.
Both operations are idempotent at this state. -/
theorem load_model_embedding_not_restored :
    offload_model embedOffloadExample =
      { modules := [("embed", ⟨true, false, .cpu⟩), ("proj", ⟨false, true, .cpu⟩)],
        offload_modules := [("embed", .cuda 0), ("proj", .cuda 0)] } ∧
    load_model (offload_model embedOffloadExample) =
      { modules := [("embed", ⟨true, false, .cpu⟩), ("proj", ⟨false, true, .cuda 0⟩)],
        offload_modules := [] } ∧
    offload_model (offload_model embedOffloadExample) =
      offload_model embedOffloadExample ∧
    load_model (load_model (offload_model embedOffloadExample)) =
      load_model (offload_model embedOffloadExample) := by
  decide

lemma GRPO.rrFold_zero (W : ℕ) : rrFold 0 W = List.replicate W [] := rfl

lemma GRPO.rrFold_succ (N W : ℕ) : rrFold (N + 1) W = rrStep W (rrFold N W) N := by
  unfold rrFold
  rw [List.range_succ, List.foldl_append]
  rfl

lemma GRPO.rrFold_closed (N W : ℕ) (hW : 0 < W) :
    rrFold N W =
      (List.range W).map (fun w => (List.range N).filter (fun i => i % W == w)) := by
  induction N with
  | zero =>
    rw [rrFold_zero]
    symm
    rw [List.eq_replicate_iff]
    constructor
    · simp
    · intro b hb
      simp only [List.mem_map] at hb
      rcases hb with ⟨w, -, rfl⟩
      simp
  | succ N ih =>
    rw [rrFold_succ, ih]
    have hmod : N % W < W := Nat.mod_lt _ hW
    apply List.ext_getElem
    · simp [rrStep]
    · intro j h1 h2
      simp only [rrStep, List.length_set, List.length_map, List.length_range] at h1 h2 ⊢
      have hj : j < W := by simpa using h2
      have hgetD : ((List.range W).map
          (fun w => (List.range N).filter (fun i => i % W == w))).getD (N % W) []
          = (List.range N).filter (fun i => i % W == N % W) := by
        rw [List.getD_eq_getElem?_getD, List.getElem?_map, List.getElem?_range hmod]
        rfl
      rw [List.getElem_set]
      simp only [List.getElem_map, List.getElem_range]
      rw [List.range_succ, List.filter_append]
      by_cases hcase : N % W = j
      · rw [if_pos hcase, hgetD, hcase]
        have : (List.filter (fun i => i % W == j) [N]) = [N] := by
          simp [List.filter_cons, hcase]
        rw [this]
      · rw [if_neg hcase]
        have : (List.filter (fun i => i % W == j) [N]) = [] := by
          simp [List.filter_cons, hcase]
        rw [this, List.append_nil]

lemma GRPO.rr_getD (N W w : ℕ) (hW : 0 < W) (hw : w < W) :
    (rrFold N W).getD w [] = (List.range N).filter (fun i => i % W == w) := by
  rw [rrFold_closed N W hW, List.getD_eq_getElem?_getD, List.getElem?_map,
    List.getElem?_range hw]
  rfl

lemma GRPO.rr_length (N W : ℕ) (hW : 0 < W) : (rrFold N W).length = W := by
  rw [rrFold_closed N W hW]
  simp

lemma GRPO.rr_flatten_mem (N W i : ℕ) (hW : 0 < W) :
    i ∈ (rrFold N W).flatten ↔ i < N := by
  rw [rrFold_closed N W hW, List.mem_flatten]
  constructor
  · rintro ⟨l, hl, hil⟩
    simp only [List.mem_map] at hl
    rcases hl with ⟨w, hw, rfl⟩
    exact List.mem_range.mp (List.mem_of_mem_filter hil)
  · intro hi
    refine ⟨(List.range N).filter (fun k => k % W == i % W), ?_, ?_⟩
    · exact List.mem_map.mpr ⟨i % W, List.mem_range.mpr (Nat.mod_lt _ hW), rfl⟩
    · exact List.mem_filter.mpr ⟨List.mem_range.mpr hi, by simp⟩

lemma GRPO.rr_flatten_nodup (N W : ℕ) (hW : 0 < W) : (rrFold N W).flatten.Nodup := by
  rw [rrFold_closed N W hW, List.nodup_flatten]
  constructor
  · intro l hl
    simp only [List.mem_map] at hl
    rcases hl with ⟨w, -, rfl⟩
    exact (List.nodup_range N).filter _
  · refine List.Pairwise.map _ ?_ (List.pairwise_lt_range W)
    intro a b hab x hxa hxb
    have h1 := (List.mem_filter.mp hxa).2
    have h2 := (List.mem_filter.mp hxb).2
    simp only [beq_iff_eq] at h1 h2
    omega

lemma GRPO.rr_flatten_count (N W i : ℕ) (hW : 0 < W) (hi : i < N) :
    (rrFold N W).flatten.count i = 1 :=
  List.count_eq_one_of_mem (rr_flatten_nodup N W hW)
    ((rr_flatten_mem N W i hW).mpr hi)

lemma GRPO.rr_assign (N W w : ℕ) (hW : 0 < W) (hw : w < W) :
    ∀ i ∈ (rrFold N W).getD w [], i % W = w := by
  rw [rr_getD N W w hW hw]
  intro i hi
  have := (List.mem_filter.mp hi).2
  simpa using this

lemma GRPO.rr_sorted (N W w : ℕ) (hW : 0 < W) (hw : w < W) :
    ((rrFold N W).getD w []).Sorted (· < ·) := by
  rw [rr_getD N W w hW hw]
  exact (List.sorted_lt_range N).filter _

/-- Claim C5 counterexample: with one item and zero workers the loop body
executes `0 % 0`, which raises `ZeroDivisionError`; no partition of
`[0, 1)` is returned, so the claim fails at `N = 1`, `W = 0` even though
`W ≤ N`. -/
theorem round_robin_zero_workers_raises : round_robin 1 0 = none := by
  decide

/-- Claim C5 (amended to `1 ≤ W ≤ N`): `round_robin` returns exactly `W`
ordered lists partitioning `[0, N)`: each index is assigned to worker
`i % W`, lists are pairwise disjoint (every index occurs exactly once
across the flattened plan), and each worker's list is in ascending
(original) order. -/
theorem round_robin_partition (N W : ℕ) (hW : 1 ≤ W) (hWN : W ≤ N) :
    round_robin N W = some (rrFold N W) ∧
    (rrFold N W).length = W ∧
    (∀ i, i ∈ (rrFold N W).flatten ↔ i < N) ∧
    (∀ i, i < N → (rrFold N W).flatten.count i = 1) ∧
    (∀ w, w < W → ∀ i ∈ (rrFold N W).getD w [], i % W = w) ∧
    (∀ w, w < W → ((rrFold N W).getD w []).Sorted (· < ·)) := by
  have hW0 : 0 < W := hW
  refine ⟨?_, rr_length N W hW0, fun i => rr_flatten_mem N W i hW0,
    fun i hi => rr_flatten_count N W i hW0 hi,
    fun w hw => rr_assign N W w hW0 hw,
    fun w hw => rr_sorted N W w hW0 hw⟩
  unfold round_robin
  rw [if_neg]
  intro hc
  omega

/-- Witness for C5 (amended) at `N = 4`, `W = 2`. -/
theorem round_robin_partition_witness :
    round_robin 4 2 = some (rrFold 4 2) ∧
    (rrFold 4 2).length = 2 ∧
    (∀ i, i ∈ (rrFold 4 2).flatten ↔ i < 4) ∧
    (∀ i, i < 4 → (rrFold 4 2).flatten.count i = 1) ∧
    (∀ w, w < 2 → ∀ i ∈ (rrFold 4 2).getD w [], i % 2 = w) ∧
    (∀ w, w < 2 → ((rrFold 4 2).getD w []).Sorted (· < ·)) :=
  round_robin_partition 4 2 (by decide) (by decide)

lemma GRPO.build_eq_none_iff {α : Type} (flat : List ℕ) (outputs : List α)
    (pos : ℕ) :
    buildIndexToOutput flat outputs pos = none ↔
      0 < flat.length ∧ outputs.length < pos + flat.length := by
  induction flat generalizing pos with
  | nil => simp [buildIndexToOutput]
  | cons idx rest ih =>
    simp only [buildIndexToOutput]
    cases hget : outputs[pos]? with
    | none =>
      have hlen : outputs.length ≤ pos := by
        simpa using List.getElem?_eq_none_iff.mp hget
      simp only [List.length_cons]
      constructor
      · intro _
        constructor
        · omega
        · omega
      · intro _
        trivial
    | some v =>
      have hlen : pos < outputs.length := by
        by_contra hcon
        rw [List.getElem?_eq_none_iff.mpr (by omega)] at hget
        cases hget
      simp only [Option.map_eq_none', ih, List.length_cons]
      cases rest with
      | nil => simp; omega
      | cons b t => simp; omega

lemma GRPO.build_eq_some {α : Type} (flat : List ℕ) (outputs : List α) (pos : ℕ)
    (h : pos + flat.length ≤ outputs.length) :
    buildIndexToOutput flat outputs pos = some (flat.zip (outputs.drop pos)) := by
  induction flat generalizing pos with
  | nil => simp [buildIndexToOutput]
  | cons idx rest ih =>
    have hpos : pos < outputs.length := by
      simp only [List.length_cons] at h
      omega
    simp only [buildIndexToOutput, List.getElem?_eq_getElem hpos]
    rw [ih (pos + 1) (by simp only [List.length_cons] at h; omega)]
    rw [List.drop_eq_getElem_cons hpos]
    rfl

lemma GRPO.lookup_map_pair {α : Type} (f : ℕ → α) (l : List ℕ) (k : ℕ) :
    (l.map (fun x => (x, f x))).lookup k = if k ∈ l then some (f k) else none := by
  induction l with
  | nil => simp [List.lookup]
  | cons a t ih =>
    simp only [List.map_cons, List.lookup]
    by_cases hka : k = a
    · subst hka
      simp
    · have : (k == a) = false := beq_false_of_ne hka
      rw [this]
      simp only [ih, List.mem_cons]
      by_cases hkt : k ∈ t <;> simp [hkt, hka]

lemma GRPO.dictGet_map_pair {α : Type} (f : ℕ → α) (l : List ℕ) (k : ℕ) :
    dictGet (l.map fun x => (x, f x)) k = if k ∈ l then some (f k) else none := by
  unfold dictGet
  rw [← List.map_reverse, lookup_map_pair]
  simp [List.mem_reverse]

lemma GRPO.le_foldr_max (l : List ℕ) (x : ℕ) (hx : x ∈ l) : x ≤ l.foldr max 0 := by
  induction l with
  | nil => cases hx
  | cons a t ih =>
    rcases List.mem_cons.mp hx with rfl | h
    · exact le_max_left _ _
    · exact le_trans (ih h) (le_max_right _ _)

lemma GRPO.foldr_max_le (l : List ℕ) (b : ℕ) (h : ∀ x ∈ l, x ≤ b) :
    l.foldr max 0 ≤ b := by
  induction l with
  | nil => simp
  | cons a t ih =>
    simp only [List.foldr_cons]
    exact max_le (h a (by simp)) (ih fun x hx => h x (List.mem_cons_of_mem _ hx))

lemma GRPO.filterMap_eq_map_of_forall {β γ : Type} (l : List β) (g : β → Option γ)
    (h : β → γ) (hg : ∀ x ∈ l, g x = some (h x)) : l.filterMap g = l.map h := by
  induction l with
  | nil => rfl
  | cons a t ih =>
    rw [List.filterMap_cons, hg a (by simp), List.map_cons,
      ih fun x hx => hg x (List.mem_cons_of_mem _ hx)]

lemma GRPO.zip_self_map {α : Type} (l : List ℕ) (f : ℕ → α) :
    l.zip (l.map f) = l.map (fun x => (x, f x)) := by
  induction l with
  | nil => rfl
  | cons a t ih => simp [ih]

/-- Claim C4: `reorder_outputs` inverts the round-robin distribution:
whenever `round_robin N W` produces a plan, feeding it per-worker outputs
(one output per assigned index, produced in assignment order and
flattened in worker order) reconstructs the `N` outputs in ascending
global-index order, and each global index is produced by exactly one
(worker, position) pair. -/
theorem reorder_outputs_inverts_round_robin {α : Type} (N W : ℕ) (f : ℕ → α)
    (plan : List (List ℕ)) (h : round_robin N W = some plan) :
    reorder_outputs (plan.flatten.map f) plan = some ((List.range N).map f) ∧
    ∀ i, i < N → plan.flatten.count i = 1 := by
  unfold round_robin at h
  by_cases hc : W = 0 ∧ N ≠ 0
  · rw [if_pos hc] at h
    cases h
  · rw [if_neg hc] at h
    obtain rfl : rrFold N W = plan := Option.some.inj h
    rcases Nat.eq_zero_or_pos W with hW0 | hWpos
    · have hN0 : N = 0 := by
        by_contra hN
        exact hc ⟨hW0, hN⟩
      subst hN0
      subst hW0
      exact ⟨rfl, fun i hi => by omega⟩
    · have hflatmem : ∀ i, i ∈ (rrFold N W).flatten ↔ i < N :=
        fun i => GRPO.rr_flatten_mem N W i hWpos
      have hbuild : buildIndexToOutput (rrFold N W).flatten
          ((rrFold N W).flatten.map f) 0 =
          some ((rrFold N W).flatten.map (fun x => (x, f x))) := by
        rw [GRPO.build_eq_some _ _ 0 (by simp only [List.length_map]; omega),
          List.drop_zero, GRPO.zip_self_map]
      have hget : ∀ k, dictGet ((rrFold N W).flatten.map fun x => (x, f x)) k =
          if k ∈ (rrFold N W).flatten then some (f k) else none :=
        GRPO.dictGet_map_pair f (rrFold N W).flatten
      unfold reorder_outputs
      rw [hbuild, Option.map_some']
      refine ⟨?_, fun i hi => GRPO.rr_flatten_count N W i hWpos hi⟩
      rcases Nat.eq_zero_or_pos N with hN0 | hNpos
      · subst hN0
        have hflatnil : (rrFold 0 W).flatten = [] :=
          List.eq_nil_iff_forall_not_mem.mpr
            (fun i hi => by simpa using (hflatmem i).mp hi)
        rw [hflatnil]
        rfl
      · have hmax : (rrFold N W).flatten.foldr max 0 = N - 1 := by
          apply le_antisymm
          · exact GRPO.foldr_max_le _ _ (fun x hx => by
              have := (hflatmem x).mp hx
              omega)
          · exact GRPO.le_foldr_max _ _ ((hflatmem (N - 1)).mpr (by omega))
        have hkeys : dictKeysSorted ((rrFold N W).flatten.map fun x => (x, f x)) =
            List.range N := by
          unfold dictKeysSorted
          have hfst0 : ((rrFold N W).flatten.map fun x => (x, f x)).map
              Prod.fst = (rrFold N W).flatten := by
            rw [List.map_map, show (Prod.fst ∘ fun x : ℕ => (x, f x)) = id from rfl,
              List.map_id]
          rw [hfst0, hmax]
          have hN1 : N - 1 + 1 = N := by omega
          rw [hN1]
          apply List.filter_eq_self.mpr
          intro k hk
          rw [hget k]
          have : k ∈ (rrFold N W).flatten := (hflatmem k).mpr (List.mem_range.mp hk)
          simp [this]
        rw [hkeys]
        rw [GRPO.filterMap_eq_map_of_forall (List.range N) _ f (fun k hk => by
          rw [hget k]
          simp [(hflatmem k).mpr (List.mem_range.mp hk)])]

/-- Witness for C4 at `N = 3`, `W = 2`, with outputs `f i = 10 * i`. -/
theorem reorder_outputs_inverts_round_robin_witness :
    reorder_outputs (((rrFold 3 2).flatten).map (fun i => 10 * i)) (rrFold 3 2) =
      some ((List.range 3).map (fun i => 10 * i)) ∧
    ∀ i, i < 3 → ((rrFold 3 2).flatten).count i = 1 :=
  reorder_outputs_inverts_round_robin 3 2 (fun i => 10 * i) (rrFold 3 2) (by decide)

/-- Claim C7 counterexample: a plan holding fewer indices than there are
outputs raises nothing: the trailing outputs are silently ignored, so the
claim that every length mismatch fails is false at `outputs = [10, 20]`,
`plan = [[0]]`. -/
theorem reorder_outputs_short_plan_no_error :
    reorder_outputs [(10 : ℕ), 20] [[0]] = some [10] ∧
    ([[0]] : List (List ℕ)).flatten.length ≠ ([(10 : ℕ), 20]).length := by
  decide

/-- Claim C7 (amended): `reorder_outputs` fails (with the `IndexError`
the spec calls a ProtocolError) exactly when the plan references more
indices than there are outputs; when the plan references fewer, the
extra outputs are silently dropped and no error is raised. -/
theorem reorder_outputs_none_iff {α : Type} (outputs : List α)
    (dist : List (List ℕ)) :
    reorder_outputs outputs dist = none ↔
      outputs.length < dist.flatten.length := by
  unfold reorder_outputs
  rw [Option.map_eq_none', GRPO.build_eq_none_iff]
  omega

lemma GRPO.getD_map_range (m : ℕ) (f : ℕ → ℚ) (i : ℕ) (hi : i < m) :
    ((List.range m).map f).getD i 0 = f i := by
  rw [List.getD_eq_getElem?_getD, List.getElem?_map, List.getElem?_range hi]
  rfl

lemma GRPO.sum_eq_sum_getD (l : List ℚ) :
    l.sum = ∑ j ∈ Finset.range l.length, l.getD j 0 := by
  induction l with
  | nil => simp
  | cons a t ih =>
    rw [List.sum_cons, ih, List.length_cons, Finset.sum_range_succ']
    simp [List.getD_cons_succ, List.getD_cons_zero]
    ring

lemma GRPO.eraseIdx_sum (l : List ℚ) (c : ℕ) (hc : c < l.length) :
    (l.eraseIdx c).sum = l.sum - l.getD c 0 := by
  induction l generalizing c with
  | nil => cases hc
  | cons a t ih =>
    cases c with
    | zero => simp [List.eraseIdx]
    | succ c =>
      rw [List.eraseIdx_cons_succ, List.sum_cons, List.sum_cons,
        List.getD_cons_succ, ih c (by simpa using hc)]
      ring

lemma GRPO.group_length (rewards : List ℚ) (G n p : ℕ)
    (hlen : rewards.length = n * G) (hp : p < n) :
    ((rewards.drop (p * G)).take G).length = G := by
  simp only [List.length_take, List.length_drop, hlen]
  have h1 : (p + 1) * G ≤ n * G := Nat.mul_le_mul_right G (by omega)
  have h2 : (p + 1) * G = p * G + G := by ring
  omega

lemma GRPO.group_getD (rewards : List ℚ) (G p c : ℕ) (hc : c < G) :
    ((rewards.drop (p * G)).take G).getD c 0 = rewards.getD (p * G + c) 0 := by
  rw [List.getD_eq_getElem?_getD, List.getD_eq_getElem?_getD,
    List.getElem?_take, if_pos hc, List.getElem?_drop]

lemma GRPO.advantagesFlat_getD_eq (rewards : List ℚ) (G n : ℕ)
    (hlen : rewards.length = n * G) (hG : 2 ≤ G) (i : ℕ)
    (hi : i < rewards.length) :
    (advantagesFlat rewards G).getD i 0
      = rewards.getD i 0 -
        ((∑ j ∈ Finset.range G, rewards.getD (i / G * G + j) 0)
          - rewards.getD i 0) / ((G : ℚ) - 1) := by
  have hG0 : 0 < G := by omega
  have hdivlen : rewards.length / G * G = rewards.length := by
    rw [hlen, Nat.mul_div_cancel n hG0]
  have hc : i % G < G := Nat.mod_lt _ hG0
  have hpn : i / G < n := by
    rw [Nat.div_lt_iff_lt_mul hG0]
    omega
  have hbase : i / G * G + i % G = i := by
    rw [Nat.mul_comm (i / G) G]
    exact Nat.div_add_mod i G
  unfold advantagesFlat
  rw [getD_map_range _ _ i (by omega)]
  have hglen : ((rewards.drop (i / G * G)).take G).length = G :=
    group_length rewards G n (i / G) hlen hpn
  have hgetDc : ((rewards.drop (i / G * G)).take G).getD (i % G) 0
      = rewards.getD i 0 := by
    rw [group_getD rewards G (i / G) (i % G) hc, hbase]
  have hgsum : ((rewards.drop (i / G * G)).take G).sum
      = ∑ j ∈ Finset.range G, rewards.getD (i / G * G + j) 0 := by
    rw [sum_eq_sum_getD, hglen]
    exact Finset.sum_congr rfl
      (fun j hj => group_getD rewards G (i / G) j (Finset.mem_range.mp hj))
  unfold looMeanOthers
  rw [eraseIdx_sum _ _ (by rw [hglen]; exact hc), hgsum, hgetDc,
    List.length_eraseIdx, if_pos (by rw [hglen]; exact hc), hglen]
  have : ((G - 1 : ℕ) : ℚ) = (G : ℚ) - 1 := by
    push_cast [Nat.cast_sub (by omega : 1 ≤ G)]
    ring
  rw [this]

/-- Claim C1: for every rewards sequence whose length is a multiple of
`generations_per_prompt` (which the constructor guarantees is at least
2), the computed advantages sequence has the same length, and the entry
at flat index `i` equals `reward[i]` minus the mean of the other
`G - 1` rewards of its group. -/
theorem advantages_leave_one_out (rewards : List ℚ) (G n : ℕ)
    (hlen : rewards.length = n * G) (hG : 2 ≤ G) :
    ∃ adv, computeAdvantages rewards G = some adv ∧
      adv.length = rewards.length ∧
      ∀ i, i < rewards.length →
        adv.getD i 0 = rewards.getD i 0 -
          (∑ j ∈ (Finset.range G).erase (i % G),
            rewards.getD (i / G * G + j) 0) / ((G : ℚ) - 1) := by
  have hG0 : 0 < G := by omega
  have hdivlen : rewards.length / G * G = rewards.length := by
    rw [hlen, Nat.mul_div_cancel n hG0]
  refine ⟨advantagesFlat rewards G, ?_, ?_, ?_⟩
  · unfold computeAdvantages
    rw [if_pos ⟨⟨n, by rw [hlen]; ring⟩, by omega⟩]
  · unfold advantagesFlat
    rw [List.length_map, List.length_range, hdivlen]
  · intro i hi
    rw [GRPO.advantagesFlat_getD_eq rewards G n hlen hG i hi]
    have hc : i % G < G := Nat.mod_lt _ hG0
    have hbase : i / G * G + i % G = i := by
      rw [Nat.mul_comm (i / G) G]
      exact Nat.div_add_mod i G
    have hmem : i % G ∈ Finset.range G := Finset.mem_range.mpr hc
    have herase : ∑ j ∈ (Finset.range G).erase (i % G),
        rewards.getD (i / G * G + j) 0
        = (∑ j ∈ Finset.range G, rewards.getD (i / G * G + j) 0)
          - rewards.getD i 0 := by
      rw [← Finset.sum_erase_add (Finset.range G)
        (fun j => rewards.getD (i / G * G + j) 0) hmem, hbase]
      ring
    rw [herase]

/-- Witness for C1: the worked example of the spec, 2 prompts with
`G = 4` and rewards `[1,1,1,1,0,0,0,5]`. -/
theorem advantages_leave_one_out_witness :
    ∃ adv, computeAdvantages [1, 1, 1, 1, 0, 0, 0, 5] 4 = some adv ∧
      adv.length = ([1, 1, 1, 1, 0, 0, 0, 5] : List ℚ).length ∧
      ∀ i, i < ([1, 1, 1, 1, 0, 0, 0, 5] : List ℚ).length →
        adv.getD i 0 = ([1, 1, 1, 1, 0, 0, 0, 5] : List ℚ).getD i 0 -
          (∑ j ∈ (Finset.range 4).erase (i % 4),
            ([1, 1, 1, 1, 0, 0, 0, 5] : List ℚ).getD (i / 4 * 4 + j) 0) /
              ((4 : ℚ) - 1) :=
  advantages_leave_one_out [1, 1, 1, 1, 0, 0, 0, 5] 4 2 (by rfl) (by omega)

/-- Claim C3 counterexample: rewards `[0, 2]` with `G = 2` give the
advantages `[-2, 2]`; the group sum of `reward[i] - advantage[i]` is
`2`, but `(G - 1) * mean(group) = 1 * 1 = 1`, so the claimed identity
fails. -/
theorem loo_residual_identity_fails :
    computeAdvantages [0, 2] 2 = some [-2, 2] ∧
    ¬ (∑ c ∈ Finset.range 2,
        (([0, 2] : List ℚ).getD c 0 - ([-2, 2] : List ℚ).getD c 0)
      = ((2 : ℚ) - 1) *
        ((∑ c ∈ Finset.range 2, ([0, 2] : List ℚ).getD c 0) / 2)) := by
  constructor
  · norm_num [computeAdvantages, advantagesFlat, looMeanOthers, List.range_succ]
  · rw [Finset.sum_range_succ, Finset.sum_range_succ, Finset.sum_range_succ,
      Finset.sum_range_succ]
    norm_num

/-- Claim C3 (amended): for any rewards vector reshape-compatible into
groups of size `G` (with `G ≥ 2` as the constructor guarantees), the sum
over one group of `reward[i] - advantage[i]` equals `G * mean(group)`
(the group's total reward) exactly, not `(G - 1) * mean(group)`. -/
theorem loo_residual_sum (rewards : List ℚ) (G n p : ℕ)
    (hlen : rewards.length = n * G) (hG : 2 ≤ G) (hp : p < n)
    (adv : List ℚ) (hadv : computeAdvantages rewards G = some adv) :
    ∑ c ∈ Finset.range G,
        (rewards.getD (p * G + c) 0 - adv.getD (p * G + c) 0)
      = (G : ℚ) *
        ((∑ c ∈ Finset.range G, rewards.getD (p * G + c) 0) / G) := by
  have hG0 : 0 < G := by omega
  have hadv' : adv = advantagesFlat rewards G := by
    unfold computeAdvantages at hadv
    rw [if_pos ⟨⟨n, by rw [hlen]; ring⟩, by omega⟩] at hadv
    exact (Option.some.inj hadv).symm
  subst hadv'
  have hkey : ∀ c ∈ Finset.range G,
      rewards.getD (p * G + c) 0 - (advantagesFlat rewards G).getD (p * G + c) 0
      = ((∑ j ∈ Finset.range G, rewards.getD (p * G + j) 0)
          - rewards.getD (p * G + c) 0) / ((G : ℚ) - 1) := by
    intro c hc
    have hcG : c < G := Finset.mem_range.mp hc
    have hilt : p * G + c < rewards.length := by
      have h1 : (p + 1) * G ≤ n * G := Nat.mul_le_mul_right G (by omega)
      have h2 : (p + 1) * G = p * G + G := by ring
      omega
    have hdiv : (p * G + c) / G = p := by
      rw [show p * G + c = c + G * p by ring, Nat.add_mul_div_left c p hG0,
        Nat.div_eq_of_lt hcG]
      omega
    rw [GRPO.advantagesFlat_getD_eq rewards G n hlen hG _ hilt, hdiv]
    ring
  rw [Finset.sum_congr rfl hkey]
  have hGQ : (2 : ℚ) ≤ (G : ℚ) := by exact_mod_cast hG
  have hne1 : (G : ℚ) - 1 ≠ 0 := by
    intro hzero
    have : (G : ℚ) = 1 := by linarith
    linarith
  have hne0 : (G : ℚ) ≠ 0 := by
    intro hzero
    linarith [hGQ, hzero]
  rw [← Finset.sum_div, Finset.sum_sub_distrib, Finset.sum_const,
    Finset.card_range]
  field_simp
  ring

/-- Witness for C3 (amended) at rewards `[0, 2]`, `G = 2`, group 0. -/
theorem loo_residual_sum_witness :
    ∑ c ∈ Finset.range 2,
        (([0, 2] : List ℚ).getD (0 * 2 + c) 0 -
          ([-2, 2] : List ℚ).getD (0 * 2 + c) 0)
      = (2 : ℚ) *
        ((∑ c ∈ Finset.range 2, ([0, 2] : List ℚ).getD (0 * 2 + c) 0) / 2) :=
  loo_residual_sum [0, 2] 2 1 0 (by rfl) (by omega) (by omega) [-2, 2] (by
    norm_num [computeAdvantages, advantagesFlat, looMeanOthers, List.range_succ])

lemma GRPO.sum_range_mul_blocks (P G : ℕ) (f : ℕ → ℚ) :
    ∑ i ∈ Finset.range (P * G), f i
      = ∑ p ∈ Finset.range P, ∑ c ∈ Finset.range G, f (p * G + c) := by
  induction P with
  | zero => simp
  | succ P ih =>
    rw [Finset.sum_range_succ, ← ih, show (P + 1) * G = P * G + G by ring,
      Finset.sum_range_add]

lemma GRPO.validExample_block (L : LossInputs) (hG : 0 < L.G) (p c : ℕ)
    (hc : c < L.G) : validExample L (p * L.G + c) = validPrompt L p := by
  unfold validExample
  congr 1
  rw [show p * L.G + c = c + L.G * p by ring, Nat.add_mul_div_left c p hG,
    Nat.div_eq_of_lt hc]
  omega

lemma GRPO.filteredMaskSum_nonneg (L : LossInputs) : 0 ≤ filteredMaskSum L := by
  unfold filteredMaskSum
  refine Finset.sum_nonneg (fun i _ => Finset.sum_nonneg (fun t _ => ?_))
  unfold filteredMask boolToQ
  positivity

lemma GRPO.lossNumer_eq_valid (expQ : ℚ → ℚ) (L : LossInputs) (hdvd : L.G ∣ L.B)
    (hG : 0 < L.G) :
    lossNumer expQ L
      = ∑ p ∈ (Finset.range (num_prompts L)).filter (fun p => validPrompt L p),
          ∑ c ∈ Finset.range L.G, ∑ t ∈ Finset.range L.T,
            rawPerTokenLoss expQ L (p * L.G + c) t *
              boolToQ (L.mask (p * L.G + c) t) := by
  have hB : L.B = num_prompts L * L.G := (Nat.div_mul_cancel hdvd).symm
  unfold lossNumer
  rw [hB, sum_range_mul_blocks, Finset.sum_filter]
  refine Finset.sum_congr rfl (fun p hp => ?_)
  by_cases hv : validPrompt L p = true
  · rw [if_pos hv]
    refine Finset.sum_congr rfl (fun c hc => Finset.sum_congr rfl (fun t ht => ?_))
    have hve : validExample L (p * L.G + c) = true := by
      rw [validExample_block L hG p c (Finset.mem_range.mp hc)]
      exact hv
    unfold perTokenLoss rawPerTokenLoss maskedAdv filteredMask boolToQ
    rw [hve]
    simp only [if_true]
    ring_nf
  · rw [if_neg hv]
    refine Finset.sum_eq_zero (fun c hc => Finset.sum_eq_zero (fun t ht => ?_))
    have hve : validExample L (p * L.G + c) = false := by
      rw [validExample_block L hG p c (Finset.mem_range.mp hc)]
      exact Bool.eq_false_iff.mpr (fun hcon => hv hcon)
    unfold filteredMask boolToQ
    rw [hve]
    simp

lemma GRPO.filteredMaskSum_eq_valid (L : LossInputs) (hdvd : L.G ∣ L.B)
    (hG : 0 < L.G) :
    filteredMaskSum L
      = ∑ p ∈ (Finset.range (num_prompts L)).filter (fun p => validPrompt L p),
          ∑ c ∈ Finset.range L.G, ∑ t ∈ Finset.range L.T,
            boolToQ (L.mask (p * L.G + c) t) := by
  have hB : L.B = num_prompts L * L.G := (Nat.div_mul_cancel hdvd).symm
  unfold filteredMaskSum
  rw [hB, sum_range_mul_blocks, Finset.sum_filter]
  refine Finset.sum_congr rfl (fun p hp => ?_)
  by_cases hv : validPrompt L p = true
  · rw [if_pos hv]
    refine Finset.sum_congr rfl (fun c hc => Finset.sum_congr rfl (fun t ht => ?_))
    have hve : validExample L (p * L.G + c) = true := by
      rw [validExample_block L hG p c (Finset.mem_range.mp hc)]
      exact hv
    unfold filteredMask boolToQ
    rw [hve]
    simp
  · rw [if_neg hv]
    refine Finset.sum_eq_zero (fun c hc => Finset.sum_eq_zero (fun t ht => ?_))
    have hve : validExample L (p * L.G + c) = false := by
      rw [validExample_block L hG p c (Finset.mem_range.mp hc)]
      exact Bool.eq_false_iff.mpr (fun hcon => hv hcon)
    unfold filteredMask boolToQ
    rw [hve]
    simp

/-- Claim C2: in `compute_loss`, a prompt group is valid exactly when its
maximum absolute advantage is at least the fixed threshold 0.1; tokens of
invalid groups contribute exactly zero to the summed numerator; the loss
equals the spec-side aggregation (sum of per-token loss over valid-group
tokens, divided by the count of valid-group completion-mask entries,
rescaled by `total_prompt_groups / valid_prompt_groups`); and when zero
groups are valid the returned loss is exactly 0 with no rescale division.
Stated for every abstraction `expQ` of `torch.exp`. -/
theorem compute_loss_gating (expQ : ℚ → ℚ) (L : LossInputs)
    (hdvd : L.G ∣ L.B) (hG : 0 < L.G) :
    (∀ p, validPrompt L p = true ↔ advantage_threshold ≤ groupMaxAbs L p) ∧
    (∀ i t, validExample L i = false →
        perTokenLoss expQ L i t * filteredMask L i t = 0) ∧
    (numValidPrompts L = 0 → compute_loss expQ L = 0) ∧
    compute_loss expQ L = gatedLossSpec expQ L := by
  refine ⟨fun p => by simp [validPrompt], ?_, ?_, ?_⟩
  · intro i t hve
    unfold filteredMask boolToQ
    rw [hve]
    simp
  · intro h0
    unfold compute_loss
    rw [if_pos h0]
  · unfold compute_loss gatedLossSpec
    by_cases h0 : numValidPrompts L = 0
    · rw [if_pos h0, if_pos h0]
    · rw [if_neg h0, if_neg h0,
        ← GRPO.lossNumer_eq_valid expQ L hdvd hG,
        ← GRPO.filteredMaskSum_eq_valid L hdvd hG]
      by_cases hm : 0 < filteredMaskSum L
      · rw [if_pos hm]
      · rw [if_neg hm]
        have h0m : filteredMaskSum L = 0 :=
          le_antisymm (not_lt.mp hm) (GRPO.filteredMaskSum_nonneg L)
        rw [h0m, div_zero, zero_mul]

/-- Witness for C2: the two-group example (`max |adv|` of `1/20` and
`1/2` against threshold `1/10`), with `expQ` the constant-1 stub. -/
theorem compute_loss_gating_witness :
    (∀ p, validPrompt lossExample p = true ↔
        advantage_threshold ≤ groupMaxAbs lossExample p) ∧
    (∀ i t, validExample lossExample i = false →
        perTokenLoss (fun _ => 1) lossExample i t *
          filteredMask lossExample i t = 0) ∧
    (numValidPrompts lossExample = 0 →
        compute_loss (fun _ => 1) lossExample = 0) ∧
    compute_loss (fun _ => 1) lossExample =
      gatedLossSpec (fun _ => 1) lossExample :=
  compute_loss_gating (fun _ => 1) lossExample (by decide) (by decide)
